import Mathlib

/-
Verification of the image-curator pipeline (learning-portuguese repository).

Shallow embedding of the Python sources under src/image-curator/:
  * image_library.py  — the SQLite-backed CurationStateStore (`ImageLibrary`)
  * batch_curator.py  — the batch orchestrator (`BatchCurator`)
  * api_client.py     — provider failover search and `RateLimiter`
  * image_search.py   — `ImageCache` and `ImageSearchOrchestrator`
  * gpu_manager.py    — the GPU resource gate (`GPUManager`)

The SQLite `images` table is modelled as a list of rows carrying exactly the
columns the verified properties depend on; each Python method that touches the
database becomes a pure function from store to store.  Wall-clock instants and
scores are modelled as rationals.
-/

namespace ImageCurator

/-- A row of the `images` table (image_library.py, `SCHEMA` lines 18-60),
restricted to the columns the verified properties read or write:
`id` (INTEGER PRIMARY KEY AUTOINCREMENT), `word`, `url`, `status`
(default `'candidate'`).  `UNIQUE(word, url)` is the schema's uniqueness key. -/
structure ImageRow where
  id : Nat
  word : String
  url : String
  status : String
deriving DecidableEq, Repr

/-- A row of the `image_history` audit table (image_library.py lines 70-78). -/
structure AuditRow where
  imageId : Nat
  action : String
  actor : String
  details : String
deriving DecidableEq, Repr

/-- The `images` table. -/
abbrev Store := List ImageRow

/-- `UPDATE images SET status = 'candidate' WHERE word = ? AND status = 'selected'`
(image_library.py lines 312-315). -/
def demoteSelected (w : String) (s : Store) : Store :=
  s.map fun r => if r.word = w ∧ r.status = "selected" then { r with status := "candidate" } else r

/-- `UPDATE images SET status = 'selected' WHERE id = ?`
(image_library.py lines 318-321; the `updated_at` column is not modelled). -/
def promoteId (i : Nat) (s : Store) : Store :=
  s.map fun r => if r.id = i then { r with status := "selected" } else r

/-- `ImageLibrary._log_history` (image_library.py lines 565-572): append one
audit row; the `image_id` value is taken as given, never checked against the
`images` table (SQLite foreign keys are not enabled on the connection). -/
def logHistory (h : List AuditRow) (imageId : Nat) (action actor details : String) :
    List AuditRow :=
  h ++ [⟨imageId, action, actor, details⟩]

/-- `ImageLibrary.select_image` (image_library.py lines 295-328): look up the
word of the row with the given id; if there is none, return `false` with the
store unchanged.  Otherwise, inside one transaction, demote every `'selected'`
row of that word to `'candidate'`, promote the target row to `'selected'`,
log a history row and return `true`. -/
def selectImage (s : Store) (h : List AuditRow) (imageId : Nat) (actor : String) :
    Store × List AuditRow × Bool :=
  match s.find? (fun r => r.id == imageId) with
  | none => (s, h, false)
  | some row =>
      (promoteId imageId (demoteSelected row.word s),
       logHistory h imageId "selected" actor ("Selected as image for " ++ row.word),
       true)

/-- `ImageLibrary.reject_image` (image_library.py lines 330-339): issue
`UPDATE images SET status = 'rejected' WHERE id = ?` without any existence
check, log a history row with action `'rejected'` and the reason, and return
`true` unconditionally. -/
def rejectImage (s : Store) (h : List AuditRow) (imageId : Nat) (reason actor : String) :
    Store × List AuditRow × Bool :=
  (s.map fun r => if r.id = imageId then { r with status := "rejected" } else r,
   logHistory h imageId "rejected" actor reason,
   true)

/-- The AUTOINCREMENT id handed out for the next insert: larger than every id
in the table (SQLite `lastrowid`). -/
def freshId (s : Store) : Nat :=
  (s.map (·.id)).foldr max 0 + 1

/-- `ImageLibrary.add_image` (image_library.py lines 206-238):
`INSERT OR REPLACE INTO images ...` — on a `UNIQUE(word, url)` conflict SQLite
REPLACE deletes the conflicting row and inserts the new one, so the uniqueness
violation never surfaces as an error; the fresh row id (`cursor.lastrowid`)
is returned. -/
def addImage (s : Store) (word url status : String) : Store × Nat :=
  let i := freshId s
  ((s.filter fun r => ¬(r.word = word ∧ r.url = url)) ++ [⟨i, word, url, status⟩], i)

/-- `ImageLibrary.get_selected_image` (image_library.py lines 257-264):
`SELECT * FROM images WHERE word = ? AND status = 'selected' LIMIT 1`. -/
def getSelected (s : Store) (w : String) : Option ImageRow :=
  s.find? fun r => r.word = w ∧ r.status = "selected"

/-- The rows holding status `'selected'` for word `w`. -/
def selectedFor (s : Store) (w : String) : Store :=
  s.filter fun r => r.word = w ∧ r.status = "selected"

/-- All rows holding status `'selected'`. -/
def selectedRows (s : Store) : Store :=
  s.filter fun r => r.status = "selected"

/-- The single-selected-per-word invariant. -/
def atMostOneSelected (s : Store) : Prop :=
  ∀ w, (selectedFor s w).length ≤ 1

/-- The rows for one `(word, url)` uniqueness key. -/
def pairRows (s : Store) (w u : String) : Store :=
  s.filter fun r => r.word = w ∧ r.url = u

/-- The `UNIQUE(word, url)` schema invariant. -/
def pairUnique (s : Store) : Prop :=
  ∀ w u, (pairRows s w u).length ≤ 1

/-- A sequence of `select_image` calls (each with its own transaction). -/
def selectCalls (s : Store) (h : List AuditRow) (ids : List Nat) : Store × List AuditRow :=
  ids.foldl (fun acc i =>
    let out := selectImage acc.1 acc.2 i "ai"
    (out.1, out.2.1)) (s, h)

/-- The row transformation performed by one successful `select_image` call,
promote-by-id composed after demote-by-word. -/
def selectFun (w : String) (i : Nat) (r : ImageRow) : ImageRow :=
  if r.id = i then { r with status := "selected" }
  else if r.word = w ∧ r.status = "selected" then { r with status := "candidate" }
  else r

theorem promote_demote_eq_map (w : String) (i : Nat) (s : Store) :
    promoteId i (demoteSelected w s) = s.map (selectFun w i) := by
  unfold promoteId demoteSelected
  rw [List.map_map]
  apply List.map_congr_left
  intro r _
  obtain ⟨rid, rword, rurl, rstatus⟩ := r
  by_cases hid : rid = i
  · by_cases hw : rword = w ∧ rstatus = "selected" <;>
      simp [selectFun, Function.comp, hid, hw]
  · by_cases hw : rword = w ∧ rstatus = "selected" <;>
      simp [selectFun, Function.comp, hid, hw]

theorem selectFun_id (w : String) (i : Nat) (r : ImageRow) : (selectFun w i r).id = r.id := by
  unfold selectFun
  split
  · rfl
  · split <;> rfl

theorem selectFun_word (w : String) (i : Nat) (r : ImageRow) :
    (selectFun w i r).word = r.word := by
  unfold selectFun
  split
  · rfl
  · split <;> rfl

/-- `select_image` never changes the set of row ids. -/
theorem selectImage_ids (s : Store) (h : List AuditRow) (i : Nat) (a : String) :
    (selectImage s h i a).1.map (·.id) = s.map (·.id) := by
  unfold selectImage
  cases hf : s.find? (fun r => r.id == i) with
  | none => rfl
  | some row =>
      dsimp only
      rw [promote_demote_eq_map, List.map_map]
      apply List.map_congr_left
      intro r _
      exact selectFun_id _ _ _

theorem eq_of_mem_of_id_eq {s : Store} (hnd : (s.map (·.id)).Nodup)
    {r₁ r₂ : ImageRow} (h1 : r₁ ∈ s) (h2 : r₂ ∈ s) (hid : r₁.id = r₂.id) : r₁ = r₂ :=
  List.inj_on_of_nodup_map hnd h1 h2 hid

/-- One `select_image` call preserves the single-selected-per-word invariant
(and establishes it for the word of the targeted row). -/
theorem selectImage_atMostOne (s : Store) (h : List AuditRow) (i : Nat) (a : String)
    (hnd : (s.map (·.id)).Nodup) (hinv : atMostOneSelected s) :
    atMostOneSelected (selectImage s h i a).1 := by
  unfold selectImage
  cases hf : s.find? (fun r => r.id == i) with
  | none => exact hinv
  | some row =>
      have hrow_mem : row ∈ s := List.mem_of_find?_eq_some hf
      have hrow_id : row.id = i := by
        have := List.find?_some hf
        simpa using this
      dsimp only
      rw [promote_demote_eq_map]
      intro w'
      rw [selectedFor, ← List.countP_eq_length_filter, List.countP_map]
      by_cases hw : w' = row.word
      · have hle : List.countP
            ((fun r => decide (r.word = w' ∧ r.status = "selected")) ∘ selectFun row.word i) s ≤
            List.countP (fun r => decide (r.id = i)) s := by
          apply List.countP_mono_left
          intro r _ hpr
          simp only [Function.comp, decide_eq_true_eq] at hpr
          simp only [decide_eq_true_eq]
          by_contra hid
          unfold selectFun at hpr
          rw [if_neg hid] at hpr
          by_cases hcond : r.word = row.word ∧ r.status = "selected"
          · rw [if_pos hcond] at hpr
            simp at hpr
          · rw [if_neg hcond] at hpr
            exact hcond ⟨hpr.1.trans hw, hpr.2⟩
        refine hle.trans ?_
        have hcount : List.countP (fun r => decide (r.id = i)) s =
            List.count i (s.map (·.id)) := by
          rw [List.count_eq_countP, List.countP_map]
          apply List.countP_congr
          intro r _
          by_cases hr : r.id = i <;> simp [hr]
        rw [hcount]
        exact List.nodup_iff_count_le_one.mp hnd i
      · have hle : List.countP
            ((fun r => decide (r.word = w' ∧ r.status = "selected")) ∘ selectFun row.word i) s ≤
            List.countP (fun r => decide (r.word = w' ∧ r.status = "selected")) s := by
          apply List.countP_mono_left
          intro r hr hpr
          simp only [Function.comp, decide_eq_true_eq] at hpr
          simp only [decide_eq_true_eq]
          by_cases hid : r.id = i
          · exfalso
            have hreq : r = row := eq_of_mem_of_id_eq hnd hr hrow_mem (by rw [hid, hrow_id])
            have hword : (selectFun row.word i r).word = r.word := selectFun_word _ _ _
            rw [hword, hreq] at hpr
            exact hw hpr.1.symm
          · unfold selectFun at hpr
            rw [if_neg hid] at hpr
            by_cases hcond : r.word = row.word ∧ r.status = "selected"
            · rw [if_pos hcond] at hpr
              simp at hpr
            · rw [if_neg hcond] at hpr
              exact hpr
        refine hle.trans ?_
        rw [List.countP_eq_length_filter]
        exact hinv w'

/-- C1: every element of a sequence of `select_image` calls preserves the
invariant that at most one record per word has status `'selected'`: a call that
returns `true` demotes all `'selected'` rows of the target row's word and then
promotes the single row with the target id, inside one transaction. -/
theorem select_image_per_word_unique (s : Store) (h : List AuditRow) (ids : List Nat)
    (hnd : (s.map (·.id)).Nodup) (hinv : atMostOneSelected s) :
    atMostOneSelected (selectCalls s h ids).1 := by
  induction ids generalizing s h with
  | nil => simpa [selectCalls] using hinv
  | cons i ids ih =>
      have hstep : selectCalls s h (i :: ids) =
          selectCalls (selectImage s h i "ai").1 (selectImage s h i "ai").2.1 ids := by
        simp [selectCalls, List.foldl_cons]
      rw [hstep]
      apply ih
      · rw [selectImage_ids]
        exact hnd
      · exact selectImage_atMostOne s h i "ai" hnd hinv

/-- Witness for C1: two candidate rows for the same word, then `select` called
with both ids in turn. -/
theorem select_image_per_word_unique_witness :
    ((([⟨1, "gato", "u1", "candidate"⟩, ⟨2, "gato", "u2", "candidate"⟩] : Store).map
        (·.id)).Nodup ∧
      atMostOneSelected [⟨1, "gato", "u1", "candidate"⟩, ⟨2, "gato", "u2", "candidate"⟩]) ∧
    atMostOneSelected
      (selectCalls [⟨1, "gato", "u1", "candidate"⟩, ⟨2, "gato", "u2", "candidate"⟩] [] [1, 2]).1 :=
  ⟨⟨by decide, fun w => by simp [selectedFor]⟩,
   select_image_per_word_unique _ [] [1, 2] (by decide) (fun w => by simp [selectedFor])⟩

/-- C10: `reject_image` returns `true` for every id and reason — even when no
row with the id exists: there is no existence check, the UPDATE is issued
unconditionally (a no-op for a missing id) and an audit row with action
`'rejected'` referencing the given id is appended; `select_image`, by
contrast, returns `false` for a missing id. -/
theorem reject_image_unconditional (s : Store) (h : List AuditRow) (i : Nat)
    (reason actor : String)
    (hmiss : s.find? (fun r => r.id == i) = none) :
    (rejectImage s h i reason actor).2.2 = true ∧
    (rejectImage s h i reason actor).2.1 = h ++ [⟨i, "rejected", actor, reason⟩] ∧
    (rejectImage s h i reason actor).1 = s ∧
    (selectImage s h i actor).2.2 = false := by
  refine ⟨rfl, rfl, ?_, ?_⟩
  · have hnone := List.find?_eq_none.mp hmiss
    unfold rejectImage
    dsimp only
    calc s.map (fun r => if r.id = i then { r with status := "rejected" } else r)
        = s.map id := by
          apply List.map_congr_left
          intro r hr
          rw [if_neg]
          · rfl
          · intro he
            exact hnone r hr (by simp [he])
      _ = s := List.map_id s
  · unfold selectImage
    rw [hmiss]

/-- Witness for C10: rejecting an id absent from the store. -/
theorem reject_image_unconditional_witness :
    (([⟨1, "gato", "u1", "candidate"⟩] : Store).find? (fun r => r.id == 99) = none) ∧
    ((rejectImage [⟨1, "gato", "u1", "candidate"⟩] [] 99 "blurry" "ai").2.2 = true ∧
      (rejectImage [⟨1, "gato", "u1", "candidate"⟩] [] 99 "blurry" "ai").2.1 =
        [] ++ [⟨99, "rejected", "ai", "blurry"⟩] ∧
      (rejectImage [⟨1, "gato", "u1", "candidate"⟩] [] 99 "blurry" "ai").1 =
        [⟨1, "gato", "u1", "candidate"⟩] ∧
      (selectImage [⟨1, "gato", "u1", "candidate"⟩] [] 99 "ai").2.2 = false) :=
  ⟨by decide,
   reject_image_unconditional [⟨1, "gato", "u1", "candidate"⟩] [] 99 "blurry" "ai" (by decide)⟩

/-- A sequence of `add_image` calls: each element is `(word, url, status)`. -/
def addCalls (s : Store) (calls : List (String × String × String)) : Store :=
  calls.foldl (fun acc c => (addImage acc c.1 c.2.1 c.2.2).1) s

/-- After `add_image`, the touched `(word, url)` key holds exactly the freshly
inserted row. -/
theorem pairRows_addImage_self (s : Store) (w u st : String) :
    pairRows (addImage s w u st).1 w u = [⟨freshId s, w, u, st⟩] := by
  unfold pairRows addImage
  dsimp only
  rw [List.filter_append]
  have h1 : List.filter (fun r => decide (r.word = w ∧ r.url = u))
      (s.filter fun r => ¬(r.word = w ∧ r.url = u)) = [] := by
    rw [List.filter_eq_nil_iff]
    intro r hr
    have := List.of_mem_filter hr
    simp only [decide_eq_true_eq] at this ⊢
    exact this
  rw [h1]
  simp

/-- One `add_image` call preserves the `UNIQUE(word, url)` invariant. -/
theorem addImage_pairUnique (s : Store) (w u st : String) (hs : pairUnique s) :
    pairUnique (addImage s w u st).1 := by
  intro w' u'
  by_cases hkey : w' = w ∧ u' = u
  · obtain ⟨hw, hu⟩ := hkey
    subst hw
    subst hu
    rw [pairRows_addImage_self]
    exact le_refl 1
  · unfold pairRows addImage
    dsimp only
    rw [List.filter_append]
    have h2 : List.filter (fun r => decide (r.word = w' ∧ r.url = u'))
        [(⟨freshId s, w, u, st⟩ : ImageRow)] = [] := by
      simp only [List.filter_cons, List.filter_nil, decide_eq_true_eq]
      rw [if_neg]
      intro hc
      exact hkey ⟨hc.1.symm, hc.2.symm⟩
    rw [h2, List.append_nil, List.filter_filter]
    have hle : (List.filter
        (fun r => decide (r.word = w' ∧ r.url = u') && decide ¬(r.word = w ∧ r.url = u)) s).length ≤
        (List.filter (fun r => decide (r.word = w' ∧ r.url = u')) s).length := by
      rw [← List.countP_eq_length_filter, ← List.countP_eq_length_filter]
      apply List.countP_mono_left
      intro r _ hr
      exact (Bool.and_eq_true _ _ ▸ hr).1
    exact hle.trans (hs w' u')

/-- C5: for every `(word, url)` pair the images table holds at most one row
after any sequence of `add_image` calls — re-adding an existing pair replaces
the row instead of duplicating it, and the uniqueness violation is never
surfaced: `add_image` always returns the id of the freshly written row. -/
theorem add_image_upsert_no_duplicates (s : Store) (w u st : String)
    (calls : List (String × String × String)) (hs : pairUnique s) :
    pairUnique (addCalls s calls) ∧
    pairRows (addImage s w u st).1 w u = [⟨(addImage s w u st).2, w, u, st⟩] ∧
    (addImage s w u st).2 = freshId s := by
  refine ⟨?_, pairRows_addImage_self s w u st, rfl⟩
  induction calls generalizing s with
  | nil => exact hs
  | cons c cs ih =>
      rw [addCalls, List.foldl_cons]
      exact ih _ (addImage_pairUnique s c.1 c.2.1 c.2.2 hs)

/-- Witness for C5: the same `(word, url)` pair added twice. -/
theorem add_image_upsert_no_duplicates_witness :
    pairUnique ([] : Store) ∧
    (pairUnique (addCalls [] [("gato", "u1", "candidate"), ("gato", "u1", "candidate")]) ∧
      pairRows (addImage [] "gato" "u1" "candidate").1 "gato" "u1" =
        [⟨(addImage [] "gato" "u1" "candidate").2, "gato", "u1", "candidate"⟩] ∧
      (addImage [] "gato" "u1" "candidate").2 = freshId []) :=
  ⟨fun w u => by simp [pairRows],
   add_image_upsert_no_duplicates [] "gato" "u1" "candidate"
     [("gato", "u1", "candidate"), ("gato", "u1", "candidate")]
     (fun w u => by simp [pairRows])⟩

/-
`RateLimiter` (api_client.py lines 53-76).  `acquire` is modelled as a pure
function of the recorded request timestamps and the current instant (rationals,
in seconds).  The `await asyncio.sleep(wait_time)` suspension is modelled by
advancing the clock by exactly `wait_time` (the code computes
`wait_time = requests[0] - cutoff`, so the recursive re-check runs at instant
`requests[0] + period_seconds`).  The recursion is run on explicit fuel;
`none` marks the two situations in which the Python call does not return
normally: fuel exhaustion, and the `self.requests[0]` IndexError that occurs
when the window is at capacity while empty (possible only when
`requests_per_period = 0`). -/

/-- `self.requests = [r for r in self.requests if r > cutoff]` with
`cutoff = now - period_seconds` (api_client.py line 67). -/
def evictOld (periodSeconds now : ℚ) (requests : List ℚ) : List ℚ :=
  requests.filter fun r => now - periodSeconds < r

/-- `RateLimiter.acquire` (api_client.py lines 61-76) on explicit fuel. -/
def acquireFuel (cap : Nat) (periodSeconds : ℚ) :
    Nat → List ℚ → ℚ → Option (List ℚ × Bool)
  | 0, _, _ => none
  | fuel + 1, requests, now =>
      let kept := evictOld periodSeconds now requests
      if kept.length < cap then some (kept ++ [now], true)
      else
        match kept with
        | [] => none
        | oldest :: _ => acquireFuel cap periodSeconds fuel kept (oldest + periodSeconds)

/-- `RateLimiter.acquire`: the fuel `requests.length + 2` is proved sufficient
whenever `cap ≥ 1` (each re-check strictly shrinks the retained window). -/
def acquire (cap : Nat) (periodSeconds : ℚ) (requests : List ℚ) (now : ℚ) :
    Option (List ℚ × Bool) :=
  acquireFuel cap periodSeconds (requests.length + 2) requests now

/-- With a positive capacity, `acquireFuel` admits the request once the fuel
dominates the size of the evicted window: every recursive re-check drops at
least the oldest retained timestamp. -/
theorem acquireFuel_admits (cap : Nat) (periodSeconds : ℚ) (hcap : 1 ≤ cap) :
    ∀ (fuel : Nat) (requests : List ℚ) (now : ℚ),
      (evictOld periodSeconds now requests).length + 2 ≤ fuel →
      ∃ l, acquireFuel cap periodSeconds fuel requests now = some (l, true) := by
  intro fuel
  induction fuel with
  | zero => intro requests now hle; omega
  | succ fuel ih =>
      intro requests now hle
      rw [acquireFuel]
      by_cases hlen : (evictOld periodSeconds now requests).length < cap
      · exact ⟨_, by rw [if_pos hlen]⟩
      · rw [if_neg hlen]
        cases hk : evictOld periodSeconds now requests with
        | nil =>
            exfalso
            rw [hk] at hlen
            simp at hlen
            omega
        | cons oldest rest =>
            dsimp only
            apply ih
            have hdrop : (evictOld periodSeconds (oldest + periodSeconds)
                (oldest :: rest)).length ≤ rest.length := by
              unfold evictOld
              rw [List.filter_cons]
              rw [if_neg (by simp)]
              exact List.length_filter_le _ rest
            rw [hk] at hle
            simp only [List.length_cons] at hle
            omega

/-- Counterexample to C3 as stated: with configured capacity 0 the very first
`acquire` call never returns — the window is "at capacity" while empty, and
`self.requests[0]` raises IndexError (modelled by `none`) instead of the call
eventually returning `true`. -/
theorem rate_limiter_capacity_zero_never_admits :
    acquire 0 3600 [] 0 = none := by
  rfl

/-- C3 (amended: capacity at least 1): `acquire` never rejects — it evicts the
timestamps at or beyond the window age, admits immediately while the window is
below capacity (recording the new instant), suspends exactly until the oldest
retained timestamp ages out of the window when at capacity, and every call
eventually returns `true`. -/
theorem rate_limiter_acquire_always_admits (cap : Nat) (periodSeconds : ℚ)
    (requests : List ℚ) (now : ℚ) (hcap : 1 ≤ cap) :
    (∃ l, acquire cap periodSeconds requests now = some (l, true)) ∧
    ((evictOld periodSeconds now requests).length < cap →
      acquire cap periodSeconds requests now =
        some (evictOld periodSeconds now requests ++ [now], true)) ∧
    (∀ oldest rest, evictOld periodSeconds now requests = oldest :: rest →
      ¬((oldest :: rest).length < cap) →
      acquire cap periodSeconds requests now =
        acquireFuel cap periodSeconds (requests.length + 1) (oldest :: rest)
          (oldest + periodSeconds)) := by
  refine ⟨?_, ?_, ?_⟩
  · apply acquireFuel_admits cap periodSeconds hcap
    have := List.length_filter_le (fun r => decide (now - periodSeconds < r)) requests
    unfold evictOld
    omega
  · intro hlen
    unfold acquire
    rw [acquireFuel, if_pos hlen]
  · intro oldest rest hk hlen
    unfold acquire
    rw [acquireFuel, hk, if_neg hlen]

/-- Witness for C3 (amended): capacity 1, one retained timestamp — the second
acquisition is delayed one full window and then admitted. -/
theorem rate_limiter_acquire_always_admits_witness :
    (1 ≤ 1) ∧ (∃ l, acquire 1 3600 [0] 1 = some (l, true)) :=
  ⟨le_refl 1, (rate_limiter_acquire_always_admits 1 3600 [0] 1 (le_refl 1)).1⟩

/-
`ImageCache` (image_search.py lines 27-93).  One cache file per key; the key is
the md5 of the lower-cased `"query:source"` string, modelled here by the
normalized pair itself (md5 collisions are abstracted away).  Instants are
rationals in seconds; an entry stores its `cached_at` instant and the results
payload (an arbitrary type, since the cache stores opaque JSON). -/

/-- `ImageCache._get_cache_key` (image_search.py lines 34-37): the key is
derived from the lower-cased query and the source. -/
def cacheKey (query source : String) : String × String :=
  (query.toLower, source)

/-- `ImageCache.set` (image_search.py lines 69-85): write the cache file for
the key, overwriting any previous one, stamped `cached_at = now`. -/
def cacheSet {α : Type} (store : List ((String × String) × ℚ × α)) (now : ℚ)
    (query source : String) (results : α) : List ((String × String) × ℚ × α) :=
  (cacheKey query source, now, results) ::
    store.filter fun e => e.1 ≠ cacheKey query source

/-- `ImageCache.get` (image_search.py lines 43-67): a miss when no file exists;
otherwise compute `age_hours = (now - cached_at) / 3600` and return `none`
when `age_hours > max_age_hours`, else the stored results. -/
def cacheGet {α : Type} (store : List ((String × String) × ℚ × α)) (now : ℚ)
    (query source : String) (maxAgeHours : ℚ) : Option α :=
  match store.find? (fun e => e.1 = cacheKey query source) with
  | none => none
  | some e => if maxAgeHours < (now - e.2.1) / 3600 then none else some e.2.2

/-- C8: `set` followed by `get` within the age bound returns exactly the stored
payload, and `get` returns `none` as soon as the entry's age exceeds
`max_age_hours` even though the cache file still exists. -/
theorem image_cache_roundtrip_and_expiry {α : Type}
    (store : List ((String × String) × ℚ × α)) (tSet tGet maxAgeHours : ℚ)
    (query source : String) (results : α) :
    ((tGet - tSet) / 3600 ≤ maxAgeHours →
      cacheGet (cacheSet store tSet query source results) tGet query source maxAgeHours =
        some results) ∧
    (maxAgeHours < (tGet - tSet) / 3600 →
      cacheGet (cacheSet store tSet query source results) tGet query source maxAgeHours =
        none ∧
      ((cacheSet store tSet query source results).find?
          (fun e => e.1 = cacheKey query source)).isSome = true) := by
  have hfind : (cacheSet store tSet query source results).find?
      (fun e => e.1 = cacheKey query source) = some (cacheKey query source, tSet, results) := by
    unfold cacheSet
    rw [List.find?_cons_of_pos]
    simp
  constructor
  · intro hage
    unfold cacheGet
    rw [hfind]
    dsimp only
    rw [if_neg (by exact not_lt.mpr hage)]
  · intro hage
    refine ⟨?_, by rw [hfind]; rfl⟩
    unfold cacheGet
    rw [hfind]
    dsimp only
    rw [if_pos hage]

/-- Witness for C8: a fresh read one hour after writing (bound 24h) returns the
payload; a read 48 hours later (bound 24h) misses while the entry persists. -/
theorem image_cache_roundtrip_and_expiry_witness :
    (((3600 : ℚ) - 0) / 3600 ≤ 24 ∧
      cacheGet (cacheSet ([] : List ((String × String) × ℚ × Nat)) 0 "Cat" "all" 7)
        3600 "Cat" "all" 24 = some 7) ∧
    ((24 : ℚ) < ((172800 : ℚ) - 0) / 3600 ∧
      cacheGet (cacheSet ([] : List ((String × String) × ℚ × Nat)) 0 "Cat" "all" 7)
        172800 "Cat" "all" 24 = none ∧
      ((cacheSet ([] : List ((String × String) × ℚ × Nat)) 0 "Cat" "all" 7).find?
          (fun e => e.1 = cacheKey "Cat" "all")).isSome = true) :=
  ⟨⟨by norm_num,
    (image_cache_roundtrip_and_expiry [] 0 3600 24 "Cat" "all" 7).1 (by norm_num)⟩,
   ⟨by norm_num,
    (image_cache_roundtrip_and_expiry [] 0 172800 24 "Cat" "all" 7).2 (by norm_num)⟩⟩

/-
`ResourceGate.waitUntilAvailable`.  batch_curator.process_word (lines 461-467)
calls `self.gpu_manager.wait_for_available(check_interval=2.0, max_wait=120.0)`
and proceeds with a warning when it returns `False`, but no definition of
`wait_for_available` appears in gpu_manager.py under src/ (only its caller
does). -/

/-- Modelled from the spec: the body of `waitUntilAvailable` /
`GPUManager.wait_for_available`, whose definition is missing from src/
(batch_curator.py:464 is its only trace).  Spec §4.1: "blocks the calling
task, re-sampling at the poll interval, returning true once throttling clears
or false on timeout".  `throttled k` is the k-th sample of `should_throttle`;
the argument is the number of re-samples still allowed by the timeout. -/
def waitAux (throttled : Nat → Bool) : Nat → Nat → Bool
  | k, 0 => !throttled k
  | k, n + 1 => if throttled k then waitAux throttled (k + 1) n else true

/-- Modelled from the spec: the number of poll intervals that fit in the
timeout budget `maxWaitSeconds`. -/
def maxPolls (pollIntervalSeconds maxWaitSeconds : ℚ) : Nat :=
  (maxWaitSeconds / pollIntervalSeconds).floor.toNat

/-- Modelled from the spec: `waitUntilAvailable(pollIntervalSeconds,
maxWaitSeconds) -> bool`. -/
def waitUntilAvailable (throttled : Nat → Bool) (pollIntervalSeconds maxWaitSeconds : ℚ) :
    Bool :=
  waitAux throttled 0 (maxPolls pollIntervalSeconds maxWaitSeconds)

/-- The caller's use of the gate (batch_curator.py lines 461-467): when
`should_throttle()` reports throttling, wait; on timeout log
"GPU throttle timeout, proceeding anyway" and fall through — the word is
processed in every case. -/
def gpuGateProceeds (shouldThrottle : Bool) (throttled : Nat → Bool)
    (pollIntervalSeconds maxWaitSeconds : ℚ) : Bool :=
  if shouldThrottle then
    if waitUntilAvailable throttled pollIntervalSeconds maxWaitSeconds then true else true
  else true

theorem waitAux_true_iff (throttled : Nat → Bool) :
    ∀ (n k : Nat), waitAux throttled k n = true ↔ ∃ j, j ≤ n ∧ throttled (k + j) = false := by
  intro n
  induction n with
  | zero =>
      intro k
      constructor
      · intro h
        exact ⟨0, le_refl 0, by simpa [waitAux] using h⟩
      · rintro ⟨j, hj, hth⟩
        interval_cases j
        simpa [waitAux] using hth
  | succ n ih =>
      intro k
      rw [waitAux]
      by_cases hth : throttled k = true
      · rw [if_pos hth, ih (k + 1)]
        constructor
        · rintro ⟨j, hj, hcl⟩
          exact ⟨j + 1, by omega, by rw [show k + (j + 1) = k + 1 + j by omega]; exact hcl⟩
        · rintro ⟨j, hj, hcl⟩
          cases j with
          | zero => rw [Nat.add_zero] at hcl; rw [hcl] at hth; cases hth
          | succ j =>
              exact ⟨j, by omega, by rw [show k + 1 + j = k + (j + 1) by omega]; exact hcl⟩
      · rw [if_neg hth]
        simp only [true_iff]
        exact ⟨0, by omega, by simpa using Bool.eq_false_iff.mpr (by simpa using hth)⟩

/-- C4: the re-sampling gate returns `true` exactly when throttling clears at
one of the samples inside the timeout budget (and `false` on timeout), and the
calling pipeline proceeds with the word whatever the result — throttling is
advisory, never a hard block. -/
theorem wait_until_available_spec (throttled : Nat → Bool)
    (pollIntervalSeconds maxWaitSeconds : ℚ) (shouldThrottle : Bool) :
    (waitUntilAvailable throttled pollIntervalSeconds maxWaitSeconds = true ↔
      ∃ j, j ≤ maxPolls pollIntervalSeconds maxWaitSeconds ∧ throttled j = false) ∧
    gpuGateProceeds shouldThrottle throttled pollIntervalSeconds maxWaitSeconds = true := by
  constructor
  · rw [waitUntilAvailable, waitAux_true_iff]
    constructor
    · rintro ⟨j, hj, hcl⟩
      exact ⟨j, hj, by simpa using hcl⟩
    · rintro ⟨j, hj, hcl⟩
      exact ⟨j, hj, by simpa using hcl⟩
  · unfold gpuGateProceeds
    split
    · split <;> rfl
    · rfl

/-- Witness for C4: throttling already clear at the first sample with a 120 s
budget polled every 2 s. -/
theorem wait_until_available_spec_witness :
    waitUntilAvailable (fun _ => false) 2 120 = true :=
  (wait_until_available_spec (fun _ => false) 2 120 true).1.mpr
    ⟨0, Nat.zero_le _, rfl⟩

/-
Candidates, provider failover search (api_client.py `ImageAPIClient.search`,
lines 355-405) and the scoring paths of
`ImageSearchOrchestrator.search_and_evaluate` (image_search.py lines 117-202).
-/

/-- An `ImageResult` (api_client.py lines 19-50), restricted to the fields the
verified properties read: the provider-qualified id and the image URL. -/
structure Cand where
  id : String
  url : String
deriving DecidableEq, Repr

/-- One entry of `clients_to_use`: the configured priority, the provider name,
and the outcome of `client.search(query, count, session)` for the query at
hand — `none` when the call raises (caught and skipped), `some rs` when it
returns a list (`[]` on a non-success HTTP status). -/
structure Provider where
  priority : Nat
  name : String
  outcome : Option (List Cand)
deriving DecidableEq, Repr

/-- `clients_to_use.sort(key=lambda x: x[0])` orders providers by ascending
configured priority. -/
def priorityLe (a b : Provider) : Prop :=
  a.priority ≤ b.priority

instance : DecidableRel priorityLe := fun a b =>
  inferInstanceAs (Decidable (a.priority ≤ b.priority))

instance : IsTotal Provider priorityLe :=
  ⟨fun a b => Nat.le_total a.priority b.priority⟩

instance : IsTrans Provider priorityLe :=
  ⟨fun _ _ _ hab hbc => Nat.le_trans hab hbc⟩

/-- The failover loop of `ImageAPIClient.search` (api_client.py lines 387-405):
accumulate each provider's results, skip a provider that raises, break once at
least `count` results have accumulated, and truncate to `count` at the end. -/
def searchLoop (count : Nat) : List Provider → List Cand → List Cand
  | [], acc => acc.take count
  | p :: ps, acc =>
      match p.outcome with
      | none => searchLoop count ps acc
      | some rs =>
          if count ≤ (acc ++ rs).length then (acc ++ rs).take count
          else searchLoop count ps (acc ++ rs)

/-- `ImageAPIClient.search` (api_client.py lines 355-405): sort the enabled
providers by ascending priority, then run the failover loop. -/
def searchAPI (count : Nat) (providers : List Provider) : List Cand :=
  searchLoop count (List.insertionSort priorityLe providers) []

/-- What each provider contributes: its results, or nothing if it raised. -/
def providerResults (providers : List Provider) : List Cand :=
  (providers.map fun p => p.outcome.getD []).flatten

/-- Early exit is invisible after the final truncation: the loop returns the
first `count` of everything the providers would contribute in order. -/
theorem searchLoop_eq_take (count : Nat) :
    ∀ (ps : List Provider) (acc : List Cand),
      searchLoop count ps acc = (acc ++ providerResults ps).take count := by
  intro ps
  induction ps with
  | nil =>
      intro acc
      simp [searchLoop, providerResults]
  | cons p ps ih =>
      intro acc
      rw [searchLoop]
      cases ho : p.outcome with
      | none =>
          rw [ih]
          simp [providerResults, ho]
      | some rs =>
          dsimp only
          have hjoin : providerResults (p :: ps) = rs ++ providerResults ps := by
            simp [providerResults, ho]
          by_cases hc : count ≤ (acc ++ rs).length
          · rw [if_pos hc, hjoin, ← List.append_assoc]
            conv_rhs => rw [List.take_append_eq_append_take]
            rw [Nat.sub_eq_zero_of_le hc, List.take_zero, List.append_nil]
          · rw [if_neg hc, ih, hjoin, List.append_assoc]

/-- C6: `search` accumulates candidates provider by provider in ascending
configured-priority order, a provider that raises or returns nothing
contributes nothing and aborts nothing, the result is truncated to at most
`count` entries, and in the two-provider failover scenario (one raising, one
succeeding) the result is exactly the succeeding provider's candidates,
truncated — no exception escapes. -/
theorem api_search_failover (count : Nat) (providers : List Provider)
    (a b : Provider) (rs : List Cand) :
    searchAPI count providers =
      (providerResults (List.insertionSort priorityLe providers)).take count ∧
    List.Sorted priorityLe (List.insertionSort priorityLe providers) ∧
    (searchAPI count providers).length ≤ count ∧
    (a.outcome = none → b.outcome = some rs →
      searchAPI count [a, b] = rs.take count) := by
  refine ⟨?_, List.sorted_insertionSort priorityLe providers, ?_, ?_⟩
  · rw [searchAPI, searchLoop_eq_take]
    rfl
  · rw [searchAPI, searchLoop_eq_take]
    exact List.length_take_le _ _
  · intro ha hb
    rw [searchAPI, searchLoop_eq_take]
    have : List.insertionSort priorityLe [a, b] = [a, b] ∨
        List.insertionSort priorityLe [a, b] = [b, a] := by
      simp only [List.insertionSort, List.orderedInsert]
      by_cases hab : priorityLe a b
      · left
        rw [if_pos hab]
      · right
        rw [if_neg hab]
    rcases this with h | h <;> rw [h] <;> simp [providerResults, ha, hb]

/-- Witness for C6: provider A (priority 1) raises, provider B (priority 2)
returns two candidates; the search yields exactly B's candidates. -/
theorem api_search_failover_witness :
    (Provider.mk 1 "pexels" none).outcome = none ∧
    (Provider.mk 2 "pixabay" (some [⟨"pixabay_1", "u1"⟩, ⟨"pixabay_2", "u2"⟩])).outcome =
      some [⟨"pixabay_1", "u1"⟩, ⟨"pixabay_2", "u2"⟩] ∧
    searchAPI 5 [Provider.mk 1 "pexels" none,
        Provider.mk 2 "pixabay" (some [⟨"pixabay_1", "u1"⟩, ⟨"pixabay_2", "u2"⟩])] =
      List.take 5 [⟨"pixabay_1", "u1"⟩, ⟨"pixabay_2", "u2"⟩] :=
  ⟨rfl, rfl,
   (api_search_failover 5
      [Provider.mk 1 "pexels" none,
       Provider.mk 2 "pixabay" (some [⟨"pixabay_1", "u1"⟩, ⟨"pixabay_2", "u2"⟩])]
      (Provider.mk 1 "pexels" none)
      (Provider.mk 2 "pixabay" (some [⟨"pixabay_1", "u1"⟩, ⟨"pixabay_2", "u2"⟩]))
      [⟨"pixabay_1", "u1"⟩, ⟨"pixabay_2", "u2"⟩]).2.2.2 rfl rfl⟩

/-- The neutral score `0.5` assigned when vision evaluation is skipped
(image_search.py lines 175, 190, 235). -/
def neutralScore : ℚ := 1 / 2

/-- The score `0.3` assigned to a candidate whose individual evaluation raised
(image_search.py line 187). -/
def failedEvalScore : ℚ := 3 / 10

/-- The score-assignment step of `ImageSearchOrchestrator.search_and_evaluate`
(image_search.py lines 169-190).  `useVision` is the `use_vision` argument,
`hasClient` is `self.vision_client`'s truthiness, `hasModel` is
`self.vision_client.has_vision_model()`, `throttle` is
`self.gpu_manager.should_throttle()`, and `evalScore` is the per-candidate
vision evaluation (`none` when it raises). -/
def scoreCandidates (useVision hasClient hasModel throttle : Bool)
    (evalScore : Cand → Option ℚ) (images : List Cand) : List (Cand × ℚ) :=
  if useVision && hasClient && hasModel then
    if throttle then images.map fun img => (img, neutralScore)
    else images.map fun img => (img, (evalScore img).getD failedEvalScore)
  else images.map fun img => (img, neutralScore)

/-- C7: when the resource gate reports throttling, per-candidate evaluation is
skipped for the whole batch and every candidate receives the fixed neutral
score 0.5; the same neutral path is taken when vision is disabled by
configuration or no vision model is available. -/
theorem search_and_evaluate_neutral_paths (useVision hasClient hasModel throttle : Bool)
    (evalScore : Cand → Option ℚ) (images : List Cand) :
    (scoreCandidates useVision hasClient hasModel true evalScore images =
      images.map fun img => (img, neutralScore)) ∧
    ((useVision = false ∨ hasModel = false) →
      scoreCandidates useVision hasClient hasModel throttle evalScore images =
        images.map fun img => (img, neutralScore)) ∧
    neutralScore = 1 / 2 := by
  refine ⟨?_, ?_, rfl⟩
  · unfold scoreCandidates
    by_cases hv : (useVision && hasClient && hasModel) = true
    · rw [if_pos hv, if_pos rfl]
    · rw [if_neg hv]
  · intro hoff
    unfold scoreCandidates
    rcases hoff with h | h <;> rw [h] <;> simp

/-- Witness for C7: vision disabled by configuration — both candidates score
0.5. -/
theorem search_and_evaluate_neutral_paths_witness :
    ((false = false ∨ true = false) ∧
      scoreCandidates false true true false (fun _ => some 1) [⟨"pexels_1", "u1"⟩] =
        [⟨"pexels_1", "u1"⟩].map fun img => (img, neutralScore)) ∧
    scoreCandidates true true true true (fun _ => some 1) [⟨"pexels_1", "u1"⟩] =
      [⟨"pexels_1", "u1"⟩].map fun img => (img, neutralScore) :=
  ⟨⟨Or.inl rfl,
    (search_and_evaluate_neutral_paths false true true false (fun _ => some 1)
      [⟨"pexels_1", "u1"⟩]).2.1 (Or.inl rfl)⟩,
   (search_and_evaluate_neutral_paths true true true true (fun _ => some 1)
      [⟨"pexels_1", "u1"⟩]).1⟩

/-
The selection policy of `BatchCurator.process_word` (batch_curator.py lines
487-547): convert each (candidate, 0-10 score) to a (candidate, 0-40 total,
relevance) triple, sort by total descending, select the first triple meeting
both configured thresholds; if none qualifies, persist every candidate as
`'rejected'` when `save_rejected` is set and report failure.
-/

/-- `BatchConfig` (batch_curator.py lines 41-62), restricted to the fields the
selection policy reads. -/
structure BatchConfig where
  minScore : ℚ
  minRelevance : ℚ
  saveRejected : Bool
deriving DecidableEq, Repr

/-- The source defaults: `min_score = 28` (out of 40), `min_relevance = 7`
(0-10), `save_rejected = True`. -/
def defaultBatchConfig : BatchConfig :=
  ⟨28, 7, true⟩

/-- `score_40 = score * 4 if score <= 10 else score` (batch_curator.py:491). -/
def score40 (score : ℚ) : ℚ :=
  if score ≤ 10 then score * 4 else score

/-- batch_curator.py lines 487-495: `(image_result, score_40,
estimated_relevance)` where the estimated relevance is the raw 0-10 score. -/
def scoredTriples (results : List (Cand × ℚ)) : List (Cand × ℚ × ℚ) :=
  results.map fun p => (p.1, score40 p.2, p.2)

/-- `scored_candidates.sort(key=lambda x: x[1], reverse=True)`
(batch_curator.py:511): total score descending. -/
def scoreGe (a b : Cand × ℚ × ℚ) : Prop :=
  b.2.1 ≤ a.2.1

instance : DecidableRel scoreGe := fun a b =>
  inferInstanceAs (Decidable (b.2.1 ≤ a.2.1))

instance : IsTotal (Cand × ℚ × ℚ) scoreGe :=
  ⟨fun a b => le_total b.2.1 a.2.1⟩

instance : IsTrans (Cand × ℚ × ℚ) scoreGe :=
  ⟨fun _ _ _ hab hbc => le_trans hbc hab⟩

/-- Both acceptance gates of batch_curator.py lines 517-525:
`score_40 >= min_score and relevance >= min_relevance`. -/
def meetsGates (cfg : BatchConfig) (t : Cand × ℚ × ℚ) : Prop :=
  cfg.minScore ≤ t.2.1 ∧ cfg.minRelevance ≤ t.2.2

instance (cfg : BatchConfig) : DecidablePred (meetsGates cfg) := fun t =>
  inferInstanceAs (Decidable (cfg.minScore ≤ t.2.1 ∧ cfg.minRelevance ≤ t.2.2))

/-- batch_curator.py lines 510-525: the first candidate, in total-score
descending order, that meets both gates. -/
def selectBest (cfg : BatchConfig) (results : List (Cand × ℚ)) : Option (Cand × ℚ × ℚ) :=
  (List.insertionSort scoreGe (scoredTriples results)).find? fun t =>
    decide (meetsGates cfg t)

/-- The persistence outcome of `process_word` for a scored candidate list
(batch_curator.py lines 513-547): the (candidate, status) rows written and the
per-word success flag. -/
def processOutcome (cfg : BatchConfig) (results : List (Cand × ℚ)) :
    List (Cand × String) × Bool :=
  match selectBest cfg results with
  | some t => ([(t.1, "selected")], true)
  | none =>
      ((if cfg.saveRejected then results.map fun p => (p.1, "rejected") else []), false)

/-- C2: on a non-empty scored candidate list, `process_word` persists as
`'selected'` exactly one candidate that meets both the total-score and the
relevance threshold, and every candidate with a strictly higher total score
fails at least one gate (so the persisted one is the first in descending
order); if no candidate meets both gates, nothing is persisted as
`'selected'`, every persisted row is `'rejected'` — all candidates, when
`save_rejected` is enabled — and the word is reported failed. -/
theorem process_word_selection_policy (cfg : BatchConfig) (results : List (Cand × ℚ))
    (_hne : results ≠ []) :
    ((processOutcome cfg results).2 = true →
      ∃ c s, (c, s) ∈ results ∧
        (processOutcome cfg results).1 = [(c, "selected")] ∧
        cfg.minScore ≤ score40 s ∧ cfg.minRelevance ≤ s ∧
        ∀ c' s', (c', s') ∈ results → score40 s < score40 s' →
          ¬(cfg.minScore ≤ score40 s' ∧ cfg.minRelevance ≤ s')) ∧
    ((processOutcome cfg results).2 = false →
      (∀ c s, (c, s) ∈ results → ¬(cfg.minScore ≤ score40 s ∧ cfg.minRelevance ≤ s)) ∧
      (∀ p ∈ (processOutcome cfg results).1, p.2 = "rejected") ∧
      (cfg.saveRejected = true →
        (processOutcome cfg results).1 = results.map fun p => (p.1, "rejected"))) := by
  cases hsel : selectBest cfg results with
  | none =>
      constructor
      · intro htrue
        simp [processOutcome, hsel] at htrue
      · intro _
        have hall := List.find?_eq_none.mp hsel
        refine ⟨?_, ?_, ?_⟩
        · intro c s hm hgate
          have hmem : (c, score40 s, s) ∈ scoredTriples results :=
            List.mem_map_of_mem (fun p => (p.1, score40 p.2, p.2)) hm
          have hmem' : (c, score40 s, s) ∈
              List.insertionSort scoreGe (scoredTriples results) :=
            (List.perm_insertionSort scoreGe _).mem_iff.mpr hmem
          have hng := hall _ hmem'
          simp only [decide_eq_true_eq] at hng
          exact hng ⟨hgate.1, hgate.2⟩
        · intro p hp
          simp only [processOutcome, hsel] at hp
          by_cases hsr : cfg.saveRejected = true
          · rw [if_pos hsr] at hp
            obtain ⟨q, _, hq⟩ := List.mem_map.mp hp
            rw [← hq]
          · rw [if_neg hsr] at hp
            cases hp
        · intro hsr
          simp [processOutcome, hsel, hsr]
  | some t =>
      constructor
      · intro _
        have hsel' := List.find?_eq_some.mp hsel
        have hpred := hsel'.1
        obtain ⟨front, back, hsplit, hprev⟩ := hsel'.2
        have hmem_t : t ∈ List.insertionSort scoreGe (scoredTriples results) := by
          rw [hsplit]
          simp
        have hmem_scored : t ∈ scoredTriples results :=
          (List.perm_insertionSort scoreGe _).mem_iff.mp hmem_t
        obtain ⟨p, hp_mem, hp_eq⟩ := List.mem_map.mp hmem_scored
        subst hp_eq
        simp only [decide_eq_true_eq] at hpred
        refine ⟨p.1, p.2, by simpa using hp_mem, by simp [processOutcome, hsel], hpred.1,
          hpred.2, ?_⟩
        intro c' s' hm' hgt hgate'
        have hmem'' : (c', score40 s', s') ∈
            List.insertionSort scoreGe (scoredTriples results) :=
          (List.perm_insertionSort scoreGe _).mem_iff.mpr
            (List.mem_map_of_mem (fun q => (q.1, score40 q.2, q.2)) hm')
        rw [hsplit] at hmem''
        rcases List.mem_append.mp hmem'' with hin | hin
        · have := hprev _ hin
          simp only [Bool.not_eq_eq_eq_not, Bool.not_true, decide_eq_false_iff_not] at this
          exact this ⟨hgate'.1, hgate'.2⟩
        · rcases List.mem_cons.mp hin with heq | hin
          · have : score40 s' = score40 p.2 := congrArg (fun t => t.2.1) heq
            rw [this] at hgt
            exact lt_irrefl _ hgt
          · have hsorted := List.sorted_insertionSort scoreGe (scoredTriples results)
            rw [hsplit] at hsorted
            have hpw : List.Pairwise scoreGe ((p.1, score40 p.2, p.2) :: back) :=
              (List.pairwise_append.mp hsorted).2.1
            have hrel := (List.pairwise_cons.mp hpw).1 _ hin
            have : score40 s' ≤ score40 p.2 := hrel
            exact absurd hgt (not_lt.mpr this)
      · intro hfalse
        simp [processOutcome, hsel] at hfalse

/-- Witness for C2: two candidates, scores 8 and 5 (0-10 scale); the 8-scored
candidate (total 32 ≥ 28, relevance 8 ≥ 7) is persisted as selected. -/
theorem process_word_selection_policy_witness :
    ([((⟨"pexels_1", "u1"⟩ : Cand), (8 : ℚ)), (⟨"pexels_2", "u2"⟩, 5)] ≠
      ([] : List (Cand × ℚ))) ∧
    ((processOutcome defaultBatchConfig
        [((⟨"pexels_1", "u1"⟩ : Cand), (8 : ℚ)), (⟨"pexels_2", "u2"⟩, 5)]).2 = true →
      ∃ c s, (c, s) ∈ [((⟨"pexels_1", "u1"⟩ : Cand), (8 : ℚ)), (⟨"pexels_2", "u2"⟩, 5)] ∧
        (processOutcome defaultBatchConfig
          [((⟨"pexels_1", "u1"⟩ : Cand), (8 : ℚ)), (⟨"pexels_2", "u2"⟩, 5)]).1 =
            [(c, "selected")] ∧
        defaultBatchConfig.minScore ≤ score40 s ∧ defaultBatchConfig.minRelevance ≤ s ∧
        ∀ c' s', (c', s') ∈ [((⟨"pexels_1", "u1"⟩ : Cand), (8 : ℚ)), (⟨"pexels_2", "u2"⟩, 5)] →
          score40 s < score40 s' →
          ¬(defaultBatchConfig.minScore ≤ score40 s' ∧ defaultBatchConfig.minRelevance ≤ s')) :=
  ⟨by simp,
   (process_word_selection_policy defaultBatchConfig
      [((⟨"pexels_1", "u1"⟩ : Cand), (8 : ℚ)), (⟨"pexels_2", "u2"⟩, 5)] (by simp)).1⟩

/-
`BatchCurator.run` (batch_curator.py lines 669-737) over the store: filter out
words that already have a `'selected'` record (`filter_words_needing_images`,
lines 337-351, via `get_selected_image`), then process the remaining words in
order.  `process_word` is reduced to its persistence effect: on success the
best candidate is written with status `'selected'` (`_save_candidate`, lines
577-619, which calls `add_image`); on failure all candidates are written with
status `'rejected'` when `save_rejected` is set.  The external world (provider
search, cache, scoring) is a function `env` from the vocabulary item to its
scored candidate list — running twice "without any external state change"
means both runs see the same `env` (the result cache makes the second run's
reads reproduce the first run's results).
-/

/-- One vocabulary entry as consumed by the batch (word and translation). -/
structure VocabItem where
  word : String
  english : String
deriving DecidableEq, Repr

/-- The persistence effect of `BatchCurator.process_word` (batch_curator.py
lines 434-575) on the images table. -/
def processWordRun (cfg : BatchConfig) (env : VocabItem → List (Cand × ℚ))
    (s : Store) (it : VocabItem) : Store :=
  match selectBest cfg (env it) with
  | some t => (addImage s it.word t.1.url "selected").1
  | none =>
      if cfg.saveRejected then
        (env it).foldl (fun acc p => (addImage acc it.word p.1.url "rejected").1) s
      else s

/-- `BatchCurator.run` (batch_curator.py lines 669-737): the `getSelected`
pre-check filter, then the per-word loop. -/
def runBatch (cfg : BatchConfig) (env : VocabItem → List (Cand × ℚ))
    (s : Store) (vocab : List VocabItem) : Store :=
  (vocab.filter fun it => (getSelected s it.word).isNone).foldl (processWordRun cfg env) s

theorem getSelected_eq_none_iff (s : Store) (w : String) :
    getSelected s w = none ↔ selectedFor s w = [] := by
  unfold getSelected selectedFor
  rw [List.find?_eq_none, List.filter_eq_nil_iff]

theorem selectedFor_eq_filter_selectedRows (s : Store) (w : String) :
    selectedFor s w = (selectedRows s).filter fun r => r.word = w := by
  unfold selectedFor selectedRows
  rw [List.filter_filter]
  apply List.filter_congr
  intro r _
  by_cases h1 : r.word = w <;> by_cases h2 : r.status = "selected" <;> simp [h1, h2]

/-- `add_image` only touches rows of its own word: the selected rows of every
other word are unchanged, whatever status is written. -/
theorem selectedFor_addImage_ne (s : Store) (w u st w' : String) (hne : w ≠ w') :
    selectedFor (addImage s w u st).1 w' = selectedFor s w' := by
  unfold selectedFor addImage
  dsimp only
  rw [List.filter_append, List.filter_filter]
  have h1 : List.filter (fun r => decide (r.word = w' ∧ r.status = "selected"))
      [(⟨freshId s, w, u, st⟩ : ImageRow)] = [] := by
    simp only [List.filter_cons, List.filter_nil, decide_eq_true_eq]
    rw [if_neg]
    intro hc
    exact hne hc.1
  rw [h1, List.append_nil]
  apply List.filter_congr
  intro r _
  by_cases hw : r.word = w'
  · by_cases hst : r.status = "selected"
    · have hq : ¬(r.word = w ∧ r.url = u) := fun hc => hne (hc.1.symm.trans hw)
      simp only [hw, hst, hq, decide_not]
      simp
      exact Or.inl fun hh => hne hh.symm
    · simp [hst]
  · simp [hw]

/-- Writing a non-selected status for a word with no selected row changes no
selected row: the global selected set is unchanged and the word still has no
selected row. -/
theorem selectedRows_addImage_rejected (s : Store) (w u : String)
    (hno : selectedFor s w = []) :
    selectedRows (addImage s w u "rejected").1 = selectedRows s ∧
    selectedFor (addImage s w u "rejected").1 w = [] := by
  have hno' := List.filter_eq_nil_iff.mp hno
  constructor
  · unfold selectedRows addImage
    dsimp only
    rw [List.filter_append, List.filter_filter]
    have h1 : List.filter (fun r => decide (r.status = "selected"))
        [(⟨freshId s, w, u, "rejected"⟩ : ImageRow)] = [] := by
      simp
    rw [h1, List.append_nil]
    apply List.filter_congr
    intro r hr
    by_cases hsel : r.status = "selected"
    · have hnp : ¬(r.word = w ∧ r.url = u) := by
        intro hc
        exact hno' r hr (by simp [hc.1, hsel])
      simp [hsel, hnp]
    · simp [hsel]
  · unfold selectedFor addImage
    dsimp only
    rw [List.filter_append, List.filter_filter]
    have h1 : List.filter (fun r => decide (r.word = w ∧ r.status = "selected"))
        [(⟨freshId s, w, u, "rejected"⟩ : ImageRow)] = [] := by
      simp
    rw [h1, List.append_nil, List.filter_eq_nil_iff]
    intro r hr
    simp only [Bool.and_eq_true, decide_eq_true_eq]
    intro hc
    exact hno' r hr (by simp [hc.1])

/-- The `save_rejected` loop of the failure path keeps the selected set
unchanged. -/
theorem selectedRows_rejectedFold (w : String) (cands : List (Cand × ℚ)) :
    ∀ s : Store, selectedFor s w = [] →
      selectedRows (cands.foldl (fun acc p => (addImage acc w p.1.url "rejected").1) s) =
        selectedRows s ∧
      selectedFor (cands.foldl (fun acc p => (addImage acc w p.1.url "rejected").1) s) w =
        [] := by
  induction cands with
  | nil =>
      intro s hno
      exact ⟨rfl, hno⟩
  | cons p ps ih =>
      intro s hno
      rw [List.foldl_cons]
      obtain ⟨h1, h2⟩ := selectedRows_addImage_rejected s w p.1.url hno
      obtain ⟨h3, h4⟩ := ih _ h2
      exact ⟨h3.trans h1, h4⟩

/-- A failed word (no candidate meeting both gates) with no selected row leaves
the selected set unchanged. -/
theorem processWordRun_fail (cfg : BatchConfig) (env : VocabItem → List (Cand × ℚ))
    (s : Store) (it : VocabItem) (hfail : selectBest cfg (env it) = none)
    (hno : selectedFor s it.word = []) :
    selectedRows (processWordRun cfg env s it) = selectedRows s := by
  unfold processWordRun
  rw [hfail]
  by_cases hsr : cfg.saveRejected = true
  · rw [if_pos hsr]
    exact (selectedRows_rejectedFold it.word (env it) s hno).1
  · rw [if_neg hsr]

/-- Processing a word never changes the selected rows of any other word. -/
theorem selectedFor_processWordRun_ne (cfg : BatchConfig)
    (env : VocabItem → List (Cand × ℚ)) (s : Store) (it : VocabItem) (w : String)
    (hne : it.word ≠ w) :
    selectedFor (processWordRun cfg env s it) w = selectedFor s w := by
  unfold processWordRun
  cases hsel : selectBest cfg (env it) with
  | some t => exact selectedFor_addImage_ne s it.word t.1.url "selected" w hne
  | none =>
      by_cases hsr : cfg.saveRejected = true
      · rw [if_pos hsr]
        have hgen : ∀ (cands : List (Cand × ℚ)) (s' : Store),
            selectedFor (cands.foldl
              (fun acc p => (addImage acc it.word p.1.url "rejected").1) s') w =
              selectedFor s' w := by
          intro cands
          induction cands with
          | nil => intro s'; rfl
          | cons p ps ih =>
              intro s'
              rw [List.foldl_cons, ih]
              exact selectedFor_addImage_ne s' it.word p.1.url "rejected" w hne
        exact hgen (env it) s
      · rw [if_neg hsr]

/-- Folding the per-word step over items none of which carry word `w` keeps the
selected rows of `w` unchanged. -/
theorem selectedFor_foldl_ne (cfg : BatchConfig) (env : VocabItem → List (Cand × ℚ))
    (w : String) (items : List VocabItem) (hall : ∀ it ∈ items, it.word ≠ w) :
    ∀ s : Store,
      selectedFor (items.foldl (processWordRun cfg env) s) w = selectedFor s w := by
  induction items with
  | nil => intro s; rfl
  | cons it its ih =>
      intro s
      rw [List.foldl_cons, ih (fun jt hjt => hall jt (List.mem_cons_of_mem it hjt))]
      exact selectedFor_processWordRun_ne cfg env s it w (hall it (List.mem_cons_self it its))

/-- A word that qualified in the first run holds a selected row at its end. -/
theorem processWordRun_success (cfg : BatchConfig) (env : VocabItem → List (Cand × ℚ))
    (s : Store) (it : VocabItem) (t : Cand × ℚ × ℚ)
    (h : selectBest cfg (env it) = some t) :
    selectedFor (processWordRun cfg env s it) it.word ≠ [] := by
  unfold processWordRun
  rw [h]
  unfold selectedFor addImage
  dsimp only
  rw [List.filter_append]
  simp

/-- After a batch run on a deduplicated vocabulary, every vocabulary word
either holds a selected row or its candidate list has no qualifying
candidate. -/
theorem runBatch_outcome (cfg : BatchConfig) (env : VocabItem → List (Cand × ℚ))
    (s : Store) (vocab : List VocabItem) (hnd : (vocab.map (·.word)).Nodup)
    (it : VocabItem) (hit : it ∈ vocab) :
    selectedFor (runBatch cfg env s vocab) it.word ≠ [] ∨
    selectBest cfg (env it) = none := by
  by_cases hsel : selectBest cfg (env it) = none
  · exact Or.inr hsel
  · left
    obtain ⟨t, ht⟩ := Option.ne_none_iff_exists'.mp hsel
    by_cases hmem : it ∈ vocab.filter fun jt => (getSelected s jt.word).isNone
    · obtain ⟨l₁, l₂, hsplit⟩ := List.append_of_mem hmem
      have htodo_nodup :
          ((vocab.filter fun jt => (getSelected s jt.word).isNone).map (·.word)).Nodup :=
        List.Nodup.sublist (List.Sublist.map (·.word) (List.filter_sublist vocab)) hnd
      rw [hsplit] at htodo_nodup
      have hlast : (it.word :: l₂.map (·.word)).Nodup := by
        have hsub : List.Sublist ((it :: l₂).map (·.word)) ((l₁ ++ it :: l₂).map (·.word)) :=
          List.Sublist.map (·.word) (List.sublist_append_right l₁ (it :: l₂))
        simpa using List.Nodup.sublist hsub htodo_nodup
      have hnot : it.word ∉ l₂.map (·.word) := (List.nodup_cons.mp hlast).1
      have hall : ∀ jt ∈ l₂, jt.word ≠ it.word := by
        intro jt hjt heq
        exact hnot (heq ▸ List.mem_map_of_mem (·.word) hjt)
      rw [runBatch, hsplit, List.foldl_append, List.foldl_cons]
      rw [selectedFor_foldl_ne cfg env it.word l₂ hall]
      exact processWordRun_success cfg env _ it t ht
    · have hs0 : selectedFor s it.word ≠ [] := by
        intro hemp
        apply hmem
        rw [List.mem_filter]
        refine ⟨hit, ?_⟩
        rw [Option.isNone_iff_eq_none, getSelected_eq_none_iff]
        exact hemp
      have hall : ∀ jt ∈ vocab.filter fun jt => (getSelected s jt.word).isNone,
          jt.word ≠ it.word := by
        intro jt hjt heq
        have hjn : (getSelected s jt.word).isNone = true := by
          simpa using (List.mem_filter.mp hjt).2
        rw [Option.isNone_iff_eq_none, getSelected_eq_none_iff, heq] at hjn
        exact hs0 hjn
      rw [runBatch, selectedFor_foldl_ne cfg env it.word _ hall]
      exact hs0

/-- C9: batch runs are idempotent with respect to selection — with the same
environment (no external state change: the result cache replays the first
run's search results) and a vocabulary deduplicated by word (the input
contract of the batch), the set of `'selected'` rows after a second run is
exactly the set after the first run: the second run produces zero newly
selected records, because every word with a selected record is filtered out by
the `getSelected` pre-check before any search, scoring or persistence, and
every word that failed the first run fails again identically. -/
theorem batch_rerun_no_new_selected (cfg : BatchConfig)
    (env : VocabItem → List (Cand × ℚ)) (s₀ : Store) (vocab : List VocabItem)
    (hnd : (vocab.map (·.word)).Nodup) :
    selectedRows (runBatch cfg env (runBatch cfg env s₀ vocab) vocab) =
      selectedRows (runBatch cfg env s₀ vocab) := by
  have hfold : ∀ (items : List VocabItem) (s : Store),
      (∀ it ∈ items, selectBest cfg (env it) = none ∧
        selectedFor (runBatch cfg env s₀ vocab) it.word = []) →
      selectedRows s = selectedRows (runBatch cfg env s₀ vocab) →
      selectedRows (items.foldl (processWordRun cfg env) s) =
        selectedRows (runBatch cfg env s₀ vocab) := by
    intro items
    induction items with
    | nil =>
        intro s _ hs
        simpa using hs
    | cons it its ih =>
        intro s hall hs
        rw [List.foldl_cons]
        apply ih _ fun jt hjt => hall jt (List.mem_cons_of_mem it hjt)
        have hfail := (hall it (List.mem_cons_self it its)).1
        have hS1empty := (hall it (List.mem_cons_self it its)).2
        have hempty_s : selectedFor s it.word = [] := by
          rw [selectedFor_eq_filter_selectedRows, hs, ← selectedFor_eq_filter_selectedRows]
          exact hS1empty
        rw [processWordRun_fail cfg env s it hfail hempty_s]
        exact hs
  have hprops : ∀ it ∈ (vocab.filter fun it =>
      (getSelected (runBatch cfg env s₀ vocab) it.word).isNone),
      selectBest cfg (env it) = none ∧
      selectedFor (runBatch cfg env s₀ vocab) it.word = [] := by
    intro it hit
    have hmemv : it ∈ vocab := (List.mem_filter.mp hit).1
    have hnone : (getSelected (runBatch cfg env s₀ vocab) it.word).isNone = true := by
      simpa using (List.mem_filter.mp hit).2
    have hempty : selectedFor (runBatch cfg env s₀ vocab) it.word = [] := by
      rw [← getSelected_eq_none_iff, ← Option.isNone_iff_eq_none]
      exact hnone
    rcases runBatch_outcome cfg env s₀ vocab hnd it hmemv with hne | hfail
    · exact absurd hempty hne
    · exact ⟨hfail, hempty⟩
  exact hfold _ _ hprops rfl

/-- Witness for C9: a one-word vocabulary whose candidate qualifies — it is
selected in the first run and filtered out of the second. -/
theorem batch_rerun_no_new_selected_witness :
    (([(⟨"gato", "cat"⟩ : VocabItem)].map (·.word)).Nodup) ∧
    selectedRows
        (runBatch defaultBatchConfig (fun _ => [((⟨"pexels_1", "u1"⟩ : Cand), (8 : ℚ))])
          (runBatch defaultBatchConfig (fun _ => [((⟨"pexels_1", "u1"⟩ : Cand), (8 : ℚ))])
            [] [⟨"gato", "cat"⟩])
          [⟨"gato", "cat"⟩]) =
      selectedRows
        (runBatch defaultBatchConfig (fun _ => [((⟨"pexels_1", "u1"⟩ : Cand), (8 : ℚ))])
          [] [⟨"gato", "cat"⟩]) :=
  ⟨by simp,
   batch_rerun_no_new_selected defaultBatchConfig
     (fun _ => [((⟨"pexels_1", "u1"⟩ : Cand), (8 : ℚ))]) [] [⟨"gato", "cat"⟩] (by simp)⟩

end ImageCurator
